import Mathlib

/-!
Shallow embedding of `slides.py` (image slideshow controller) and proofs of
the specification's claims about it.

The program keeps a list of image file names (`self.images`), a set of
already-shown indices (`self.shown_indices`), a loop flag (`self.bLoop`,
set to `False` in `__init__`) and the current index
(`self.current_image_index`, initialised to `-1`).  `get_next_image`
either exits ("DONE!", `sys.exit(0)`) when all images have been shown and
looping is off, resets the shown set when looping is on, and otherwise
picks a random element of the list of not-yet-shown indices, records it
and returns the corresponding file name.  `calculate_scaled_size` scales
an image uniformly to fit a target box.  `show_next_image` loads and
renders the chosen image, printing the error and the file name and
exiting with status 0 if anything in the load/render block throws.

Randomness: `random.choice(seq)` returns `seq[k]` for an index `k`
produced deterministically from the seeded generator state, and raises
`IndexError` on an empty sequence.  We model the generator as a stream
`rng : ℕ → ℕ` of draws, call number `n` consuming `rng n`, and
`random.choice` as taking element `r % seq.length` of the sequence, which
is deterministic in the draw and can produce every element of the
sequence for a suitable draw.

Real arithmetic in `calculate_scaled_size` (Python floats) is modelled
exactly over ℚ; `int()` on the nonnegative values that occur there is
`Int.floor`.
-/

namespace Slides

/-- State of the `Slideshow` object, fields as set up in `__init__`
(lines 25-57 of `slides.py`): the image file-name list, the loop flag,
the set of already shown indices and the current image index (`-1`
before any image has been shown). -/
structure SlideState where
  images : List String
  bLoop : Bool
  shown_indices : Finset ℕ
  current_image_index : ℤ
deriving DecidableEq

/-- Result of one call to `get_next_image`: `done` models printing
"DONE!" followed by `sys.exit(0)`; `indexError` models the `IndexError`
raised by `random.choice` on an empty availability list; `ok name t`
models a normal return of file name `name` with updated object state
`t`. -/
inductive NextResult where
  | done : NextResult
  | indexError : NextResult
  | ok : String → SlideState → NextResult
deriving DecidableEq

/-- Line 84 of `slides.py`:
`available_indices = [i for i in range(len(self.images)) if i not in self.shown_indices]`. -/
def availableIndices (s : SlideState) : List ℕ :=
  (List.range s.images.length).filter (fun i => decide (i ∉ s.shown_indices))

/-- Lines 84-92 of `slides.py`: the selection part of `get_next_image`
after the exhaustion check.  `random.choice` on the nonempty availability
list is modelled as taking element `r % length` where `r` is the draw
from the seeded generator; on an empty list it raises `IndexError`. -/
def select (s : SlideState) (r : ℕ) : NextResult :=
  let avail := availableIndices s
  if avail.length = 0 then NextResult.indexError
  else
    let i := avail.getD (r % avail.length) 0
    NextResult.ok (s.images.getD i "")
      { s with current_image_index := (i : ℤ),
               shown_indices := insert i s.shown_indices }

/-- Lines 72-92 of `slides.py` (`Slideshow.get_next_image`): if every
index has been shown, either exit with "DONE!" (loop off) or clear the
shown set (loop on); then choose a random available index, record it and
return its file name. -/
def get_next_image (s : SlideState) (r : ℕ) : NextResult :=
  if s.images.length = s.shown_indices.card then
    if s.bLoop = false then NextResult.done
    else select { s with shown_indices := (∅ : Finset ℕ) } r
  else select s r

/-- State of the `Slideshow` object right after `__init__` (lines 25-54):
`bLoop` is hard-coded to `False` in the source (line 27, a constant the
user may edit to `True` for continuous looping), the shown set is empty
and the current index is `-1`; `images` is the list built by
`get_images`.  The flag is a parameter so both configurations can be
reasoned about. -/
def initState (images : List String) (bLoop : Bool) : SlideState :=
  { images := images, bLoop := bLoop,
    shown_indices := (∅ : Finset ℕ), current_image_index := -1 }

/-- The object state after `k` calls to `get_next_image`, the `n`-th call
consuming draw `rng n`.  A call that exits the process (`done` or
`indexError`) leaves the state as it was (no further mutation happens). -/
def stateAfter (s : SlideState) (rng : ℕ → ℕ) : ℕ → SlideState
  | 0 => s
  | k + 1 =>
    match get_next_image (stateAfter s rng k) (rng k) with
    | NextResult.ok _ t => t
    | _ => stateAfter s rng k

/-- Result of call number `k` (0-based) to `get_next_image` in the run
starting from `s` with draw stream `rng`. -/
def callResult (s : SlideState) (rng : ℕ → ℕ) (k : ℕ) : NextResult :=
  get_next_image (stateAfter s rng k) (rng k)

/-- State reached after `k` calls in a run from a freshly initialised
slideshow over `images` with loop flag `b`. -/
def reachState (images : List String) (b : Bool) (rng : ℕ → ℕ) (k : ℕ) :
    SlideState :=
  stateAfter (initState images b) rng k

/-- The index selected by call number `k` of the run from a freshly
initialised slideshow (0 if that call did not return normally). -/
def selIdx (images : List String) (b : Bool) (rng : ℕ → ℕ) (k : ℕ) : ℕ :=
  match callResult (initState images b) rng k with
  | NextResult.ok _ t => t.current_image_index.toNat
  | _ => 0

/-- Lines 133-147 of `slides.py` (`Slideshow.calculate_scaled_size`):
`wr`, `hr`, `sr` are the source's `width_ratio`, `height_ratio`,
`scale_ratio`; the float arithmetic is modelled exactly over ℚ and
`int()` (truncation of the nonnegative products) as `Int.floor`.  On a
zero original dimension Python would raise `ZeroDivisionError`; ℚ
division by zero yields 0, and no claim concerns that case. -/
def calculate_scaled_size (original_size target_size : ℕ × ℕ) : ℤ × ℤ :=
  let wr : ℚ := (target_size.1 : ℚ) / (original_size.1 : ℚ)
  let hr : ℚ := (target_size.2 : ℚ) / (original_size.2 : ℚ)
  let sr : ℚ := min wr hr
  (Int.floor ((original_size.1 : ℚ) * sr), Int.floor ((original_size.2 : ℚ) * sr))

/-- The index `random.choice` picks at line 87 (element `r % length` of the
availability list), as a function of the state and the draw. -/
def stepIndex (s : SlideState) (r : ℕ) : ℕ :=
  (availableIndices s).getD (r % (availableIndices s).length) 0

/-- Line 16 of `slides.py`: pause time in milliseconds between images. -/
def PAUSE : ℕ := 2000

/-- Line 17 of `slides.py`: width and height of the display window. -/
def SIZE : ℕ := 500

/-- Lines 21-22 of `slides.py`: the fixed size of the image window. -/
def Slideshow.width : ℕ := SIZE

/-- Line 22 of `slides.py`: `height = width`. -/
def Slideshow.height : ℕ := Slideshow.width

/-- A decoded image as far as the program observes it: its pixel
dimensions. -/
structure PILImage where
  width : ℕ
  height : ℕ
deriving DecidableEq

/-- Lines 95-108 of `slides.py` (`Slideshow.load_image`): open the image
at the path, scale it to fit the target size, return a renderable handle.
`Image.open`, `img.resize` and `ImageTk.PhotoImage` are external library
calls; their possible failures are modelled by the `decode` oracle
returning `Except.error` with the exception's message.  On success the
resulting handle has the dimensions computed by
`calculate_scaled_size`. -/
def load_image (decode : String → Except String PILImage) (path : String)
    (target_size : ℕ × ℕ) : Except String PILImage :=
  match decode path with
  | Except.error e => Except.error e
  | Except.ok img =>
    let scaled := calculate_scaled_size (img.width, img.height) target_size
    Except.ok { width := scaled.1.toNat, height := scaled.2.toNat }

/-- Outcome of one `show_next_image` tick: `doneExit` is the "DONE!"
completion exit inside `get_next_image`; `chooseError` the uncaught
`IndexError` from `random.choice`; `errorExit printed code` models the
`except` branch that prints the given lines and calls `sys.exit(code)`;
`rendered t img d` models a successful render of `img` on the canvas
with the updated state `t` and a one-shot timer armed for `d`
milliseconds (the only outcome that schedules another call — no retry
happens on any other outcome). -/
inductive TickOutcome where
  | doneExit : TickOutcome
  | chooseError : TickOutcome
  | errorExit : List String → ℕ → TickOutcome
  | rendered : SlideState → PILImage → ℕ → TickOutcome
deriving DecidableEq

/-- Lines 118-130 of `slides.py` (`Slideshow.show_next_image`): get the
next file name, try to load and render it, and on any exception in that
block print `Error loading image: {e}` and `name = {name}` and exit with
status 0; on success arm the timer for `PAUSE` ms.  The `decode` oracle
stands for the external image library applied to the joined path
`os.path.join(self.folder, name)` (the folder prefix is absorbed into
the oracle). -/
def show_next_image (decode : String → Except String PILImage)
    (s : SlideState) (r : ℕ) : TickOutcome :=
  match get_next_image s r with
  | NextResult.done => TickOutcome.doneExit
  | NextResult.indexError => TickOutcome.chooseError
  | NextResult.ok name t =>
    match load_image decode name (Slideshow.width, Slideshow.height) with
    | Except.error e =>
        TickOutcome.errorExit ["Error loading image: " ++ e, "name = " ++ name] 0
    | Except.ok img => TickOutcome.rendered t img PAUSE

/-- A direct entry of the scanned directory as the program observes it:
its name, whether `os.path.isfile` holds (regular file, so
subdirectories are excluded), and the result of `imghdr.what` (content
inspection: `some format` when the file's content is a recognised image,
`none` otherwise). -/
structure DirEntry where
  name : String
  is_file : Bool
  imghdr_what : Option String
deriving DecidableEq

/-- Lines 60-69 of `slides.py` (`Slideshow.get_images`): iterate over the
directory listing and append each name whose path is a regular file and
whose content `imghdr.what` recognises (a non-`None`, hence truthy,
result). -/
def get_images (entries : List DirEntry) : List String :=
  match entries with
  | [] => []
  | e :: rest =>
    if e.is_file && e.imghdr_what.isSome then e.name :: get_images rest
    else get_images rest

/-- The slideshow state after a `show_next_image` tick with outcome `o`
from state `s`: only a successful render carries an updated state; every
other outcome exits the process, leaving `s` as the last state. -/
def tickState (o : TickOutcome) (s : SlideState) : SlideState :=
  match o with
  | TickOutcome.rendered t _ _ => t
  | _ => s

end Slides

namespace Slides

lemma mem_availableIndices (s : SlideState) (i : ℕ) :
    i ∈ availableIndices s ↔ i < s.images.length ∧ i ∉ s.shown_indices := by
  simp [availableIndices, List.mem_filter, List.mem_range]

lemma availableIndices_ne_nil (s : SlideState)
    (hlt : s.shown_indices.card < s.images.length) :
    availableIndices s ≠ [] := by
  have hns : ¬ Finset.range s.images.length ⊆ s.shown_indices := by
    intro hsub2
    have hc := Finset.card_le_card hsub2
    rw [Finset.card_range] at hc
    omega
  obtain ⟨i, hi, hni⟩ := Finset.not_subset.mp hns
  exact List.ne_nil_of_mem
    ((mem_availableIndices s i).mpr ⟨Finset.mem_range.mp hi, hni⟩)

lemma stepIndex_mem (s : SlideState) (r : ℕ) (h : availableIndices s ≠ []) :
    stepIndex s r ∈ availableIndices s := by
  have hl : 0 < (availableIndices s).length := List.length_pos.mpr h
  rw [stepIndex, List.getD_eq_getElem _ _ (Nat.mod_lt r hl)]
  exact List.getElem_mem _

lemma select_eq_ok (s : SlideState) (r : ℕ) (h : availableIndices s ≠ []) :
    select s r = NextResult.ok (s.images.getD (stepIndex s r) "")
      { s with current_image_index := (stepIndex s r : ℤ),
               shown_indices := insert (stepIndex s r) s.shown_indices } := by
  have hl : ¬ (availableIndices s).length = 0 := by
    simpa [List.length_eq_zero] using h
  simp [select, hl, stepIndex]

lemma get_next_image_not_exhausted (s : SlideState) (r : ℕ)
    (h : s.images.length ≠ s.shown_indices.card) :
    get_next_image s r = select s r := by
  simp [get_next_image, h]

lemma get_next_image_done (s : SlideState) (r : ℕ)
    (h : s.images.length = s.shown_indices.card) (hb : s.bLoop = false) :
    get_next_image s r = NextResult.done := by
  simp [get_next_image, h, hb]

lemma get_next_image_loop_reset (s : SlideState) (r : ℕ)
    (h : s.images.length = s.shown_indices.card) (hb : s.bLoop = true) :
    get_next_image s r =
      select { s with shown_indices := (∅ : Finset ℕ) } r := by
  simp [get_next_image, h, hb]

lemma step_ok (s : SlideState) (r : ℕ)
    (hlt : s.shown_indices.card < s.images.length) :
    get_next_image s r = NextResult.ok (s.images.getD (stepIndex s r) "")
      { s with current_image_index := (stepIndex s r : ℤ),
               shown_indices := insert (stepIndex s r) s.shown_indices } ∧
    stepIndex s r < s.images.length ∧ stepIndex s r ∉ s.shown_indices := by
  have hne := availableIndices_ne_nil s hlt
  have hmem := (mem_availableIndices s _).mp (stepIndex_mem s r hne)
  refine ⟨?_, hmem.1, hmem.2⟩
  rw [get_next_image_not_exhausted s r (by omega), select_eq_ok s r hne]

lemma availableIndices_empty_shown (s : SlideState)
    (h : s.shown_indices = ∅) :
    availableIndices s = List.range s.images.length := by
  simp [availableIndices, h]

lemma select_ok_inv (s : SlideState) (r : ℕ) (nm : String) (t : SlideState)
    (hok : select s r = NextResult.ok nm t) :
    t.images = s.images ∧ t.bLoop = s.bLoop ∧
    ∃ i, i < s.images.length ∧ i ∉ s.shown_indices ∧
      t.shown_indices = insert i s.shown_indices ∧
      t.current_image_index = (i : ℤ) := by
  by_cases hl : (availableIndices s).length = 0
  · simp [select, hl] at hok
  · have hne : availableIndices s ≠ [] := by
      simpa [List.length_eq_zero] using hl
    rw [select_eq_ok s r hne] at hok
    obtain ⟨hnm, ht⟩ := NextResult.ok.inj hok
    have hmem := (mem_availableIndices s _).mp (stepIndex_mem s r hne)
    subst ht
    exact ⟨rfl, rfl, stepIndex s r, hmem.1, hmem.2, rfl, rfl⟩

lemma get_next_image_ok_inv (s : SlideState) (r : ℕ) (nm : String)
    (t : SlideState) (hok : get_next_image s r = NextResult.ok nm t) :
    t.images = s.images ∧ t.bLoop = s.bLoop ∧
    ∃ i, i < s.images.length ∧
      ((s.images.length = s.shown_indices.card ∧ t.shown_indices = {i}) ∨
       (s.images.length ≠ s.shown_indices.card ∧ i ∉ s.shown_indices ∧
          t.shown_indices = insert i s.shown_indices)) := by
  by_cases hx : s.images.length = s.shown_indices.card
  · have hb : s.bLoop = true := by
      by_contra hb
      have hb2 : s.bLoop = false := by revert hb; cases s.bLoop <;> simp
      rw [get_next_image_done s r hx hb2] at hok
      cases hok
    rw [get_next_image_loop_reset s r hx hb] at hok
    obtain ⟨h1, h2, i, hi, hni, hins, hcur⟩ := select_ok_inv _ r nm t hok
    refine ⟨h1, h2, i, hi, Or.inl ⟨hx, ?_⟩⟩
    simpa using hins
  · rw [get_next_image_not_exhausted s r hx] at hok
    obtain ⟨h1, h2, i, hi, hni, hins, hcur⟩ := select_ok_inv s r nm t hok
    exact ⟨h1, h2, i, hi, Or.inr ⟨hx, hni, hins⟩⟩

lemma stateAfter_succ_ok (s : SlideState) (rng : ℕ → ℕ) (k : ℕ) (nm : String)
    (t : SlideState) (hc : callResult s rng k = NextResult.ok nm t) :
    stateAfter s rng (k + 1) = t := by
  have hc2 : get_next_image (stateAfter s rng k) (rng k) = NextResult.ok nm t := hc
  show (match get_next_image (stateAfter s rng k) (rng k) with
        | NextResult.ok _ t => t
        | _ => stateAfter s rng k) = t
  rw [hc2]

lemma stateAfter_succ_done (s : SlideState) (rng : ℕ → ℕ) (k : ℕ)
    (hc : callResult s rng k = NextResult.done) :
    stateAfter s rng (k + 1) = stateAfter s rng k := by
  have hc2 : get_next_image (stateAfter s rng k) (rng k) = NextResult.done := hc
  show (match get_next_image (stateAfter s rng k) (rng k) with
        | NextResult.ok _ t => t
        | _ => stateAfter s rng k) = stateAfter s rng k
  rw [hc2]

lemma stateAfter_succ_indexError (s : SlideState) (rng : ℕ → ℕ) (k : ℕ)
    (hc : callResult s rng k = NextResult.indexError) :
    stateAfter s rng (k + 1) = stateAfter s rng k := by
  have hc2 : get_next_image (stateAfter s rng k) (rng k) = NextResult.indexError := hc
  show (match get_next_image (stateAfter s rng k) (rng k) with
        | NextResult.ok _ t => t
        | _ => stateAfter s rng k) = stateAfter s rng k
  rw [hc2]

lemma reach_invariant (images : List String) (b : Bool) (rng : ℕ → ℕ) :
    ∀ k, (reachState images b rng k).images = images ∧
      (reachState images b rng k).bLoop = b ∧
      (reachState images b rng k).shown_indices ⊆ Finset.range images.length := by
  intro k
  induction k with
  | zero => exact ⟨rfl, rfl, by simp [reachState, stateAfter, initState]⟩
  | succ k ih =>
    obtain ⟨hio, hbo, hso⟩ := ih
    cases hc : callResult (initState images b) rng k with
    | done =>
      rw [show reachState images b rng (k + 1) = reachState images b rng k from
        stateAfter_succ_done _ rng k hc]
      exact ⟨hio, hbo, hso⟩
    | indexError =>
      rw [show reachState images b rng (k + 1) = reachState images b rng k from
        stateAfter_succ_indexError _ rng k hc]
      exact ⟨hio, hbo, hso⟩
    | ok nm t =>
      rw [show reachState images b rng (k + 1) = t from
        stateAfter_succ_ok _ rng k nm t hc]
      have hok : get_next_image (reachState images b rng k) (rng k) =
          NextResult.ok nm t := hc
      obtain ⟨h1, h2, i, hi, hcase⟩ :=
        get_next_image_ok_inv (reachState images b rng k) (rng k) nm t hok
      rw [hio] at hi
      refine ⟨h1.trans hio, h2.trans hbo, ?_⟩
      rcases hcase with ⟨hfull, hins⟩ | ⟨hne, hni, hins⟩
      · rw [hins, Finset.singleton_subset_iff, Finset.mem_range]
        exact hi
      · rw [hins, Finset.insert_subset_iff]
        exact ⟨Finset.mem_range.mpr hi, hso⟩

/-- C2: in every reachable state of the slideshow (any number of
next-image calls from initialisation, with or without looping), the shown
set only holds valid indices into the image set and never exceeds its
size; and the next call terminates the run (loop off), or clears the
shown set and selects from the full set (loop on), exactly when the shown
set's size equals the image-set size — otherwise the call returns
normally, the shown set only grows and its size increases by exactly
one. -/
theorem shown_set_invariant (images : List String) (b : Bool) (rng : ℕ → ℕ)
    (k r : ℕ) :
    (reachState images b rng k).shown_indices ⊆
        Finset.range (reachState images b rng k).images.length ∧
    (reachState images b rng k).shown_indices.card ≤
        (reachState images b rng k).images.length ∧
    ((reachState images b rng k).shown_indices.card =
        (reachState images b rng k).images.length ∧ b = false →
      get_next_image (reachState images b rng k) r = NextResult.done) ∧
    ((reachState images b rng k).shown_indices.card =
        (reachState images b rng k).images.length ∧ b = true →
      get_next_image (reachState images b rng k) r =
        select { reachState images b rng k with
                 shown_indices := (∅ : Finset ℕ) } r) ∧
    ((reachState images b rng k).shown_indices.card ≠
        (reachState images b rng k).images.length →
      ∃ nm t, get_next_image (reachState images b rng k) r = NextResult.ok nm t ∧
        (reachState images b rng k).shown_indices ⊆ t.shown_indices ∧
        t.shown_indices.card = (reachState images b rng k).shown_indices.card + 1) := by
  obtain ⟨hio, hbo, hso⟩ := reach_invariant images b rng k
  have hsub : (reachState images b rng k).shown_indices ⊆
      Finset.range (reachState images b rng k).images.length := by
    rw [hio]; exact hso
  have hcard : (reachState images b rng k).shown_indices.card ≤
      (reachState images b rng k).images.length := by
    have hc := Finset.card_le_card hsub
    rwa [Finset.card_range] at hc
  refine ⟨hsub, hcard, ?_, ?_, ?_⟩
  · rintro ⟨hfull, hbf⟩
    exact get_next_image_done _ r hfull.symm (hbo.trans hbf)
  · rintro ⟨hfull, hbt⟩
    exact get_next_image_loop_reset _ r hfull.symm (hbo.trans hbt)
  · intro hne
    have hlt : (reachState images b rng k).shown_indices.card <
        (reachState images b rng k).images.length := lt_of_le_of_ne hcard hne
    obtain ⟨hok, hi, hni⟩ := step_ok (reachState images b rng k) r hlt
    exact ⟨_, _, hok, Finset.subset_insert _ _,
      Finset.card_insert_of_not_mem hni⟩

/-- Witness for C2: after one call on a one-image slideshow the shown set
is full, and the second call reports completion. -/
theorem shown_set_invariant_witness :
    ((reachState ["a"] false (fun n => n) 1).shown_indices.card =
        (reachState ["a"] false (fun n => n) 1).images.length ∧ false = false) ∧
    get_next_image (reachState ["a"] false (fun n => n) 1) 0 = NextResult.done :=
  ⟨by decide, (shown_set_invariant ["a"] false (fun n => n) 1 0).2.2.1 (by decide)⟩

/-- C4: with the image set empty, the first next-image selection (from the
freshly initialised state, whose loop flag is the source's hard-coded
`False`) does not raise an index error: the empty set counts as
immediately exhausted and the call reports completion ("DONE!",
`sys.exit(0)`), for every random draw. -/
theorem empty_image_set_first_selection_completes (rng : ℕ → ℕ) :
    callResult (initState [] false) rng 0 = NextResult.done := by
  rfl

lemma noloop_run (images : List String) (rng : ℕ → ℕ) :
    ∀ k, k ≤ images.length →
      (reachState images false rng k).shown_indices.card = k ∧
      (∀ j, j < k →
        selIdx images false rng j ∉ (reachState images false rng j).shown_indices ∧
        (reachState images false rng (j + 1)).shown_indices =
          insert (selIdx images false rng j)
            (reachState images false rng j).shown_indices ∧
        callResult (initState images false) rng j =
          NextResult.ok (images.getD (selIdx images false rng j) "")
            (reachState images false rng (j + 1))) := by
  intro k
  induction k with
  | zero =>
    exact fun _ => ⟨by simp [reachState, stateAfter, initState],
      fun j hj => absurd hj (Nat.not_lt_zero j)⟩
  | succ k ih =>
    intro hk1
    have hk : k ≤ images.length := Nat.le_of_succ_le hk1
    obtain ⟨hcard, hsteps⟩ := ih hk
    obtain ⟨hio, hbo, hso⟩ := reach_invariant images false rng k
    have hlt : (reachState images false rng k).shown_indices.card <
        (reachState images false rng k).images.length := by
      rw [hcard, hio]; omega
    obtain ⟨hok, hi, hni⟩ := step_ok (reachState images false rng k) (rng k) hlt
    have hcall : callResult (initState images false) rng k =
        NextResult.ok
          ((reachState images false rng k).images.getD
            (stepIndex (reachState images false rng k) (rng k)) "")
          { reachState images false rng k with
            current_image_index :=
              (stepIndex (reachState images false rng k) (rng k) : ℤ),
            shown_indices :=
              insert (stepIndex (reachState images false rng k) (rng k))
                (reachState images false rng k).shown_indices } := hok
    have hnext : reachState images false rng (k + 1) =
        { reachState images false rng k with
          current_image_index :=
            (stepIndex (reachState images false rng k) (rng k) : ℤ),
          shown_indices :=
            insert (stepIndex (reachState images false rng k) (rng k))
              (reachState images false rng k).shown_indices } :=
      stateAfter_succ_ok _ rng k _ _ hcall
    have hsel : selIdx images false rng k =
        stepIndex (reachState images false rng k) (rng k) := by
      simp only [selIdx, hcall, Int.toNat_natCast]
    refine ⟨?_, ?_⟩
    · rw [hnext]
      simp [Finset.card_insert_of_not_mem hni, hcard]
    · intro j hj
      rcases Nat.lt_succ_iff_lt_or_eq.mp hj with h | h
      · exact hsteps j h
      · subst h
        refine ⟨?_, ?_, ?_⟩
        · rw [hsel]; exact hni
        · rw [hsel, hnext]
        · rw [hcall, hnext, hsel, hio]

lemma noloop_shown_mono (images : List String) (rng : ℕ → ℕ) :
    ∀ k, k ≤ images.length → ∀ j, j ≤ k →
      (reachState images false rng j).shown_indices ⊆
        (reachState images false rng k).shown_indices := by
  intro k
  induction k with
  | zero =>
    intro _ j hj
    rw [Nat.le_zero.mp hj]
  | succ k ih =>
    intro hk1 j hj
    have hk : k ≤ images.length := Nat.le_of_succ_le hk1
    rcases Nat.eq_or_lt_of_le hj with he | hl
    · rw [he]
    · have hjk : j ≤ k := Nat.lt_succ_iff.mp hl
      obtain ⟨-, hsteps⟩ := noloop_run images rng (k + 1) hk1
      obtain ⟨-, hins, -⟩ := hsteps k (Nat.lt_succ_self k)
      rw [hins]
      exact (ih hk j hjk).trans (Finset.subset_insert _ _)

lemma noloop_selIdx_inj (images : List String) (rng : ℕ → ℕ)
    (j k : ℕ) (hjk : j < k) (hk : k < images.length) :
    selIdx images false rng j ≠ selIdx images false rng k := by
  obtain ⟨-, hsteps⟩ := noloop_run images rng images.length le_rfl
  obtain ⟨hnotj, hinsj, -⟩ := hsteps j (hjk.trans hk)
  obtain ⟨hnotk, -, -⟩ := hsteps k hk
  have hmemj : selIdx images false rng j ∈
      (reachState images false rng (j + 1)).shown_indices := by
    rw [hinsj]; exact Finset.mem_insert_self _ _
  have hsubj : (reachState images false rng (j + 1)).shown_indices ⊆
      (reachState images false rng k).shown_indices :=
    noloop_shown_mono images rng k (le_of_lt hk) (j + 1) hjk
  intro he
  exact hnotk (he ▸ hsubj hmemj)

/-- C1: with looping disabled and a non-empty image set of size N, the
first N calls to `get_next_image` all return normally, call `k` returning
the file name at the selected index; the N selected indices are pairwise
distinct and form exactly the index set `{0 … N-1}` (each image's file
name is returned exactly once); and call N+1 reports completion,
terminating the process with a success status ("DONE!", `sys.exit(0)`). -/
theorem noloop_pass_visits_each_image_once (images : List String)
    (rng : ℕ → ℕ) (_hN : 0 < images.length) :
    (∀ k, k < images.length →
      callResult (initState images false) rng k =
        NextResult.ok (images.getD (selIdx images false rng k) "")
          (reachState images false rng (k + 1))) ∧
    ((List.range images.length).map (selIdx images false rng)).Nodup ∧
    ((List.range images.length).map (selIdx images false rng)).toFinset =
      Finset.range images.length ∧
    callResult (initState images false) rng images.length =
      NextResult.done := by
  obtain ⟨hcardN, hsteps⟩ := noloop_run images rng images.length le_rfl
  have hnd : ((List.range images.length).map (selIdx images false rng)).Nodup := by
    refine List.Nodup.map_on ?_ (List.nodup_range images.length)
    intro x hx y hy hxy
    rw [List.mem_range] at hx hy
    by_contra hne
    rcases Nat.lt_or_ge x y with h | h
    · exact noloop_selIdx_inj images rng x y h hy hxy
    · exact noloop_selIdx_inj images rng y x
        (lt_of_le_of_ne h (Ne.symm hne)) hx hxy.symm
  have hsubR : ((List.range images.length).map (selIdx images false rng)).toFinset ⊆
      Finset.range images.length := by
    intro a ha
    rw [List.mem_toFinset, List.mem_map] at ha
    obtain ⟨k, hk, hka⟩ := ha
    rw [List.mem_range] at hk
    obtain ⟨-, hins, -⟩ := hsteps k hk
    obtain ⟨-, -, hso⟩ := reach_invariant images false rng (k + 1)
    have hmem : selIdx images false rng k ∈
        (reachState images false rng (k + 1)).shown_indices := by
      rw [hins]; exact Finset.mem_insert_self _ _
    rw [← hka]
    exact hso hmem
  refine ⟨fun k hk => (hsteps k hk).2.2, hnd, ?_, ?_⟩
  · refine Finset.eq_of_subset_of_card_le hsubR ?_
    rw [List.toFinset_card_of_nodup hnd]
    simp [Finset.card_range]
  · obtain ⟨hio, hbo, -⟩ := reach_invariant images false rng images.length
    refine get_next_image_done _ _ ?_ hbo
    show (reachState images false rng images.length).images.length =
      (reachState images false rng images.length).shown_indices.card
    rw [hio, hcardN]

/-- Witness for C1 on a one-image slideshow with the identity draw
stream. -/
theorem noloop_pass_visits_each_image_once_witness :
    0 < (["a"] : List String).length ∧
    ((∀ k, k < (["a"] : List String).length →
        callResult (initState ["a"] false) (fun n => n) k =
          NextResult.ok
            ((["a"] : List String).getD (selIdx ["a"] false (fun n => n) k) "")
            (reachState ["a"] false (fun n => n) (k + 1))) ∧
     ((List.range (["a"] : List String).length).map
        (selIdx ["a"] false (fun n => n))).Nodup ∧
     ((List.range (["a"] : List String).length).map
        (selIdx ["a"] false (fun n => n))).toFinset =
        Finset.range (["a"] : List String).length ∧
     callResult (initState ["a"] false) (fun n => n)
        (["a"] : List String).length = NextResult.done) :=
  ⟨by decide, noloop_pass_visits_each_image_once ["a"] (fun n => n) (by decide)⟩

/-- C5: with looping enabled and a non-empty image set, a call to
`get_next_image` in a state where the shown set has full size clears the
shown set and then selects from the full index set, so immediately after
this reset-triggering selection the shown set has size exactly 1 (and the
image set is unchanged). -/
theorem loop_reset_selection_card_one (s : SlideState) (r : ℕ)
    (hb : s.bLoop = true)
    (hx : s.images.length = s.shown_indices.card)
    (hN : 0 < s.images.length) :
    ∃ name t, get_next_image s r = NextResult.ok name t ∧
      t.shown_indices.card = 1 ∧ t.images = s.images := by
  rw [get_next_image_loop_reset s r hx hb]
  have hlt : ({ s with shown_indices := (∅ : Finset ℕ) } : SlideState).shown_indices.card <
      ({ s with shown_indices := (∅ : Finset ℕ) } : SlideState).images.length := by
    simpa using hN
  have hne := availableIndices_ne_nil _ hlt
  rw [select_eq_ok _ r hne]
  exact ⟨_, _, rfl, by simp, rfl⟩

/-- Witness for C5 at a concrete exhausted looping state. -/
theorem loop_reset_selection_card_one_witness :
    ((⟨["a"], true, {0}, 0⟩ : SlideState).bLoop = true ∧
     (⟨["a"], true, {0}, 0⟩ : SlideState).images.length =
       (⟨["a"], true, {0}, 0⟩ : SlideState).shown_indices.card ∧
     0 < (⟨["a"], true, {0}, 0⟩ : SlideState).images.length) ∧
    ∃ name t,
      get_next_image (⟨["a"], true, {0}, 0⟩ : SlideState) 0 = NextResult.ok name t ∧
      t.shown_indices.card = 1 ∧
      t.images = (⟨["a"], true, {0}, 0⟩ : SlideState).images :=
  ⟨⟨rfl, by decide, by decide⟩,
   loop_reset_selection_card_one _ 0 rfl (by decide) (by decide)⟩

/-- C10: with looping enabled, the reset-triggering selection draws from
the full index set with no exclusion across the pass boundary: for any
exhausted state whose current index is `j`, some random draw makes the
call right after the reset select index `j` again, displaying the same
image twice in a row across the loop restart. -/
theorem loop_reset_can_repeat_last_image (s : SlideState) (j : ℕ)
    (hb : s.bLoop = true)
    (hx : s.images.length = s.shown_indices.card)
    (hj : j < s.images.length)
    (hcur : s.current_image_index = (j : ℤ)) :
    ∃ r name t, get_next_image s r = NextResult.ok name t ∧
      t.current_image_index = s.current_image_index := by
  have hres := get_next_image_loop_reset s j hx hb
  set s0 : SlideState := { s with shown_indices := (∅ : Finset ℕ) } with hs0
  have hav : availableIndices s0 = List.range s.images.length :=
    availableIndices_empty_shown s0 rfl
  have hne : availableIndices s0 ≠ [] := by
    rw [hav]
    exact List.ne_nil_of_mem (List.mem_range.mpr hj)
  have hstep : stepIndex s0 j = j := by
    rw [stepIndex, hav, List.length_range, Nat.mod_eq_of_lt hj,
        List.getD_eq_getElem _ _ (by simpa using hj), List.getElem_range]
  exact ⟨j, _, _, by rw [hres, select_eq_ok s0 j hne], by simp [hstep, hcur]⟩

/-- Witness for C10 at a concrete exhausted looping state whose current
index is 1. -/
theorem loop_reset_can_repeat_last_image_witness :
    ((⟨["a", "b"], true, {0, 1}, 1⟩ : SlideState).bLoop = true ∧
     (⟨["a", "b"], true, {0, 1}, 1⟩ : SlideState).images.length =
       (⟨["a", "b"], true, {0, 1}, 1⟩ : SlideState).shown_indices.card ∧
     1 < (⟨["a", "b"], true, {0, 1}, 1⟩ : SlideState).images.length ∧
     (⟨["a", "b"], true, {0, 1}, 1⟩ : SlideState).current_image_index = ((1 : ℕ) : ℤ)) ∧
    ∃ r name t,
      get_next_image (⟨["a", "b"], true, {0, 1}, 1⟩ : SlideState) r = NextResult.ok name t ∧
      t.current_image_index =
        (⟨["a", "b"], true, {0, 1}, 1⟩ : SlideState).current_image_index :=
  ⟨⟨rfl, by decide, by decide, by decide⟩,
   loop_reset_can_repeat_last_image _ 1 rfl (by decide) (by decide) (by decide)⟩

/-- C3: for positive original dimensions (W, H) and any target box
(Tw, Th), the scaled size is the single ratio min(Tw/W, Th/H) applied to
both dimensions with truncation to integers; it fits in the box
(w ≤ Tw and h ≤ Th), at least one dimension meets its bound exactly, and
the aspect ratio is preserved within rounding: the cross products w·H
and h·W differ by less than one rounding unit in each direction. -/
theorem scaled_size_fits_and_preserves_aspect (W H Tw Th : ℕ)
    (hW : 0 < W) (hH : 0 < H) :
    (calculate_scaled_size (W, H) (Tw, Th)).1 =
        Int.floor ((W : ℚ) * min ((Tw : ℚ) / (W : ℚ)) ((Th : ℚ) / (H : ℚ))) ∧
    (calculate_scaled_size (W, H) (Tw, Th)).2 =
        Int.floor ((H : ℚ) * min ((Tw : ℚ) / (W : ℚ)) ((Th : ℚ) / (H : ℚ))) ∧
    (calculate_scaled_size (W, H) (Tw, Th)).1 ≤ (Tw : ℤ) ∧
    (calculate_scaled_size (W, H) (Tw, Th)).2 ≤ (Th : ℤ) ∧
    ((calculate_scaled_size (W, H) (Tw, Th)).1 = (Tw : ℤ) ∨
     (calculate_scaled_size (W, H) (Tw, Th)).2 = (Th : ℤ)) ∧
    (calculate_scaled_size (W, H) (Tw, Th)).1 * (H : ℤ) -
        (calculate_scaled_size (W, H) (Tw, Th)).2 * (W : ℤ) < (W : ℤ) ∧
    (calculate_scaled_size (W, H) (Tw, Th)).2 * (W : ℤ) -
        (calculate_scaled_size (W, H) (Tw, Th)).1 * (H : ℤ) < (H : ℤ) := by
  have hWq : (0 : ℚ) < (W : ℚ) := by exact_mod_cast hW
  have hHq : (0 : ℚ) < (H : ℚ) := by exact_mod_cast hH
  set sc : ℚ := min ((Tw : ℚ) / (W : ℚ)) ((Th : ℚ) / (H : ℚ)) with hsc
  have h1 : (calculate_scaled_size (W, H) (Tw, Th)).1 =
      Int.floor ((W : ℚ) * sc) := rfl
  have h2 : (calculate_scaled_size (W, H) (Tw, Th)).2 =
      Int.floor ((H : ℚ) * sc) := rfl
  have hWs : (W : ℚ) * sc ≤ (Tw : ℚ) := by
    calc (W : ℚ) * sc ≤ (W : ℚ) * ((Tw : ℚ) / (W : ℚ)) :=
          mul_le_mul_of_nonneg_left (min_le_left _ _) (le_of_lt hWq)
      _ = (Tw : ℚ) := by field_simp
  have hHs : (H : ℚ) * sc ≤ (Th : ℚ) := by
    calc (H : ℚ) * sc ≤ (H : ℚ) * ((Th : ℚ) / (H : ℚ)) :=
          mul_le_mul_of_nonneg_left (min_le_right _ _) (le_of_lt hHq)
      _ = (Th : ℚ) := by field_simp
  have hw_le : Int.floor ((W : ℚ) * sc) ≤ (Tw : ℤ) := by
    calc Int.floor ((W : ℚ) * sc) ≤ Int.floor ((Tw : ℚ)) :=
          Int.floor_le_floor hWs
      _ = (Tw : ℤ) := Int.floor_natCast Tw
  have hh_le : Int.floor ((H : ℚ) * sc) ≤ (Th : ℤ) := by
    calc Int.floor ((H : ℚ) * sc) ≤ Int.floor ((Th : ℚ)) :=
          Int.floor_le_floor hHs
      _ = (Th : ℤ) := Int.floor_natCast Th
  have heq : Int.floor ((W : ℚ) * sc) = (Tw : ℤ) ∨
      Int.floor ((H : ℚ) * sc) = (Th : ℤ) := by
    rcases min_choice ((Tw : ℚ) / (W : ℚ)) ((Th : ℚ) / (H : ℚ)) with hmin | hmin
    · left
      rw [hsc, hmin]
      have hc : (W : ℚ) * ((Tw : ℚ) / (W : ℚ)) = (Tw : ℚ) := by field_simp
      rw [hc, Int.floor_natCast]
    · right
      rw [hsc, hmin]
      have hc : (H : ℚ) * ((Th : ℚ) / (H : ℚ)) = (Th : ℚ) := by field_simp
      rw [hc, Int.floor_natCast]
  have haspect1 : Int.floor ((W : ℚ) * sc) * (H : ℤ) -
      Int.floor ((H : ℚ) * sc) * (W : ℤ) < (W : ℤ) := by
    have k1 : ((Int.floor ((W : ℚ) * sc) : ℚ)) * (H : ℚ) ≤
        ((W : ℚ) * sc) * (H : ℚ) :=
      mul_le_mul_of_nonneg_right (Int.floor_le _) (le_of_lt hHq)
    have k2 : ((H : ℚ) * sc) * (W : ℚ) <
        ((Int.floor ((H : ℚ) * sc) : ℚ) + 1) * (W : ℚ) :=
      mul_lt_mul_of_pos_right (Int.lt_floor_add_one _) hWq
    have hq : (Int.floor ((W : ℚ) * sc) : ℚ) * (H : ℚ) -
        (Int.floor ((H : ℚ) * sc) : ℚ) * (W : ℚ) < (W : ℚ) := by
      nlinarith [k1, k2]
    exact_mod_cast hq
  have haspect2 : Int.floor ((H : ℚ) * sc) * (W : ℤ) -
      Int.floor ((W : ℚ) * sc) * (H : ℤ) < (H : ℤ) := by
    have k1 : ((Int.floor ((H : ℚ) * sc) : ℚ)) * (W : ℚ) ≤
        ((H : ℚ) * sc) * (W : ℚ) :=
      mul_le_mul_of_nonneg_right (Int.floor_le _) (le_of_lt hWq)
    have k2 : ((W : ℚ) * sc) * (H : ℚ) <
        ((Int.floor ((W : ℚ) * sc) : ℚ) + 1) * (H : ℚ) :=
      mul_lt_mul_of_pos_right (Int.lt_floor_add_one _) hHq
    have hq : (Int.floor ((H : ℚ) * sc) : ℚ) * (W : ℚ) -
        (Int.floor ((W : ℚ) * sc) : ℚ) * (H : ℚ) < (H : ℚ) := by
      nlinarith [k1, k2]
    exact_mod_cast hq
  rw [h1, h2]
  exact ⟨rfl, rfl, hw_le, hh_le, heq, haspect1, haspect2⟩

/-- Witness for C3 at the original size 2 × 1 and target box 4 × 4
(scaled size 4 × 2). -/
theorem scaled_size_fits_and_preserves_aspect_witness :
    (0 < 2 ∧ 0 < 1) ∧
    ((calculate_scaled_size (2, 1) (4, 4)).1 =
        Int.floor ((2 : ℚ) * min ((4 : ℚ) / ((2 : ℕ) : ℚ)) ((4 : ℚ) / ((1 : ℕ) : ℚ))) ∧
     (calculate_scaled_size (2, 1) (4, 4)).2 =
        Int.floor ((1 : ℚ) * min ((4 : ℚ) / ((2 : ℕ) : ℚ)) ((4 : ℚ) / ((1 : ℕ) : ℚ))) ∧
     (calculate_scaled_size (2, 1) (4, 4)).1 ≤ ((4 : ℕ) : ℤ) ∧
     (calculate_scaled_size (2, 1) (4, 4)).2 ≤ ((4 : ℕ) : ℤ) ∧
     ((calculate_scaled_size (2, 1) (4, 4)).1 = ((4 : ℕ) : ℤ) ∨
      (calculate_scaled_size (2, 1) (4, 4)).2 = ((4 : ℕ) : ℤ)) ∧
     (calculate_scaled_size (2, 1) (4, 4)).1 * ((1 : ℕ) : ℤ) -
        (calculate_scaled_size (2, 1) (4, 4)).2 * ((2 : ℕ) : ℤ) < ((2 : ℕ) : ℤ) ∧
     (calculate_scaled_size (2, 1) (4, 4)).2 * ((2 : ℕ) : ℤ) -
        (calculate_scaled_size (2, 1) (4, 4)).1 * ((1 : ℕ) : ℤ) < ((1 : ℕ) : ℤ)) := by
  refine ⟨⟨by norm_num, by norm_num⟩, ?_⟩
  have h := scaled_size_fits_and_preserves_aspect 2 1 4 4 (by norm_num) (by norm_num)
  exact_mod_cast h

/-- C6: whenever the selected image's decode/scale step fails with any
error, `show_next_image` prints the error message together with the
offending file name and exits immediately with status 0; it does not
render anything and does not arm the timer (no retry, no fallback
image, no partial render). -/
theorem load_failure_prints_and_exits_zero
    (decode : String → Except String PILImage) (s : SlideState) (r : ℕ)
    (name : String) (t : SlideState) (e : String)
    (hsel : get_next_image s r = NextResult.ok name t)
    (hfail : decode name = Except.error e) :
    show_next_image decode s r =
      TickOutcome.errorExit ["Error loading image: " ++ e, "name = " ++ name] 0 ∧
    (∀ t2 img d, show_next_image decode s r ≠ TickOutcome.rendered t2 img d) := by
  have h1 : show_next_image decode s r =
      TickOutcome.errorExit ["Error loading image: " ++ e, "name = " ++ name] 0 := by
    simp only [show_next_image, hsel, load_image, hfail]
  refine ⟨h1, ?_⟩
  intro t2 img d
  rw [h1]
  simp

/-- Witness for C6: a decoder that always fails on a one-image
slideshow. -/
theorem load_failure_prints_and_exits_zero_witness :
    (get_next_image (initState ["a"] false) 0 =
       NextResult.ok "a"
         ({ images := ["a"], bLoop := false,
            shown_indices := ({0} : Finset ℕ),
            current_image_index := (0 : ℤ) } : SlideState) ∧
     (fun _ : String => (Except.error "bad" : Except String PILImage)) "a" =
       Except.error "bad") ∧
    (show_next_image (fun _ => Except.error "bad") (initState ["a"] false) 0 =
       TickOutcome.errorExit
         ["Error loading image: " ++ "bad", "name = " ++ "a"] 0 ∧
     (∀ t2 img d,
        show_next_image (fun _ => Except.error "bad") (initState ["a"] false) 0 ≠
          TickOutcome.rendered t2 img d)) :=
  ⟨⟨by decide, rfl⟩,
   load_failure_prints_and_exits_zero (fun _ => Except.error "bad")
     (initState ["a"] false) 0 "a"
     ({ images := ["a"], bLoop := false,
        shown_indices := ({0} : Finset ℕ),
        current_image_index := (0 : ℤ) } : SlideState) "bad"
     (by decide) rfl⟩

/-- C7: the visiting order is a deterministic function of the random
seed and the image set: two runs over the same image set whose draw
streams agree pointwise select the same index and produce the same call
result at every step. -/
theorem fixed_seed_deterministic_order (images : List String) (b : Bool)
    (rng1 rng2 : ℕ → ℕ) (h : ∀ n, rng1 n = rng2 n) (k : ℕ) :
    selIdx images b rng1 k = selIdx images b rng2 k ∧
    callResult (initState images b) rng1 k =
      callResult (initState images b) rng2 k := by
  have he : rng1 = rng2 := funext h
  rw [he]
  exact ⟨rfl, rfl⟩

/-- Witness for C7 with two syntactically different but pointwise equal
draw streams. -/
theorem fixed_seed_deterministic_order_witness :
    (∀ n : ℕ, (fun m : ℕ => m * 1) n = (fun m : ℕ => m) n) ∧
    (selIdx ["a", "b"] false (fun m => m * 1) 0 =
       selIdx ["a", "b"] false (fun m => m) 0 ∧
     callResult (initState ["a", "b"] false) (fun m => m * 1) 0 =
       callResult (initState ["a", "b"] false) (fun m => m) 0) :=
  ⟨fun n => Nat.mul_one n,
   fixed_seed_deterministic_order ["a", "b"] false _ _
     (fun n => Nat.mul_one n) 0⟩

/-- C8: the image set is exactly the directory's direct entries filtered
to regular files whose content is detected as an image (subdirectories
and non-image files skipped), built once at initialisation; and no
subsequent operation changes it: after any number of ticks (selection,
loading, rendering, loop resets included) the state's image list is
still the one built at initialisation. -/
theorem image_set_built_once_and_immutable (entries : List DirEntry)
    (b : Bool) (rng : ℕ → ℕ) (k : ℕ) :
    get_images entries =
      (entries.filter (fun e => e.is_file && e.imghdr_what.isSome)).map
        DirEntry.name ∧
    (reachState (get_images entries) b rng k).images = get_images entries ∧
    (∀ decode r,
      (tickState
        (show_next_image decode (reachState (get_images entries) b rng k) r)
        (reachState (get_images entries) b rng k)).images =
      get_images entries) := by
  refine ⟨?_, (reach_invariant _ b rng k).1, ?_⟩
  · induction entries with
    | nil => rfl
    | cons e rest ih =>
      by_cases hp : (e.is_file && e.imghdr_what.isSome) = true
      · simp [get_images, List.filter_cons, hp, ih]
      · simp [get_images, List.filter_cons, hp, ih]
  · intro decode r
    cases hg : get_next_image (reachState (get_images entries) b rng k) r with
    | done =>
      simp only [tickState, show_next_image, hg]
      exact (reach_invariant _ b rng k).1
    | indexError =>
      simp only [tickState, show_next_image, hg]
      exact (reach_invariant _ b rng k).1
    | ok nm t =>
      obtain ⟨h1, -, -⟩ := get_next_image_ok_inv _ r nm t hg
      cases hl : load_image decode nm (Slideshow.width, Slideshow.height) with
      | error e2 =>
        simp only [tickState, show_next_image, hg, hl]
        exact (reach_invariant _ b rng k).1
      | ok img =>
        simp only [tickState, show_next_image, hg, hl]
        rw [h1]
        exact (reach_invariant _ b rng k).1

/-- C9: for the original size 10000 × 1 (both dimensions positive) and the
target box 500 × 500, the scale calculation returns height 0: the scaled
size is not guaranteed to have both dimensions positive. -/
theorem scaled_size_can_collapse_to_zero :
    0 < 10000 ∧ 0 < 1 ∧
      calculate_scaled_size (10000, 1) (500, 500) = (500, 0) ∧
      ¬ 0 < (calculate_scaled_size (10000, 1) (500, 500)).2 := by
  refine ⟨by norm_num, by norm_num, ?_, ?_⟩ <;> norm_num [calculate_scaled_size]

end Slides
